import Mathlib

/-!
Shallow embedding of `toxyl/semver` (`src/main.go`) and verification of its
specification claims.

The Go package defines a `Version` struct (`major`, `minor`, `patch : int` and
`suffix : string`), a parser `NewVersionFromString` built on the regular
expression `(?:v|V|)((?:\d+\.){0,2}\d+)-{0,1}(.*)`, a formatter
`Version.String`, in-place setters, a sorter `SortVersions` and a validity
check `IsValidVersionString`.

Modelling decisions:
* Go `int` is modelled as `Int` (64-bit on the reference platform; the
  `strconv.Atoi` range check uses the 64-bit bounds).
* Go strings are Lean `String`s; the parser works on the underlying `List Char`
  (byte-wise lexicographic order on valid UTF-8 agrees with the code-point
  order of Lean's `String` order).
* `regexp.FindStringSubmatch` is embedded as `findMatch`, a direct functional
  rendering of leftmost-first (Perl-preference) matching of this particular
  pattern: the match starts at the leftmost position where an optional `v`/`V`
  is followed by at least one digit; group 1 greedily captures up to three
  dot-separated digit runs (an extra `run.` iteration is only taken when
  another digit follows, exactly as backtracking resolves `(?:\d+\.){0,2}\d+`);
  then `-{0,1}` greedily consumes a single hyphen if present and `(.*)` is the
  remainder up to (not including) the first newline: Go compiles the pattern
  with the `Perl` flag set, which leaves `DotNL` unset, so `.` does not match
  `\n` (group 2 is the maximal newline-free run).
* `sort.Slice` is modelled as a comparison sort (`List.mergeSort`) driven by
  the exact `less` closure from `SortVersions`; the Go sort guarantees the
  result is non-decreasing with respect to `less`.
* Methods that Go implements by writing through the receiver pointer and
  `return v` are modelled as state transformers `Version → Version` (the
  result is both the receiver's new state and the returned instance).
  `SetFromString` is the exception: it never writes through its receiver and
  may return a different instance, so it is modelled as a pair
  (receiver state after the call, state of the returned instance).
-/

namespace Semver

/-- The `Version` struct from `src/main.go`. -/
structure Version where
  major : Int
  minor : Int
  patch : Int
  suffix : String
deriving DecidableEq, Repr

/-- `func (v *Version) SetMajor(version int) *Version` — writes the field in
place and returns the receiver. -/
def Version.setMajor (v : Version) (version : Int) : Version :=
  { v with major := version }

/-- `func (v *Version) SetMinor(version int) *Version`. -/
def Version.setMinor (v : Version) (version : Int) : Version :=
  { v with minor := version }

/-- `func (v *Version) SetPatch(version int) *Version`. -/
def Version.setPatch (v : Version) (version : Int) : Version :=
  { v with patch := version }

/-- `strings.Join(elements, ".")`. -/
def joinDots : List String → String
  | [] => ""
  | [s] => s
  | s :: rest => s ++ "." ++ joinDots rest

/-- `func (v *Version) SetSuffix(elements ...string) *Version` — clears the
suffix, then joins the segments with `.` when at least one is given. -/
def Version.setSuffix (v : Version) (elements : List String) : Version :=
  { v with suffix := if elements.length > 0 then joinDots elements else "" }

/-- `func (v *Version) Set(major, minor, patch int, suffixes ...string)`. -/
def Version.set (v : Version) (major minor patch : Int)
    (suffixes : List String) : Version :=
  (((v.setMajor major).setMinor minor).setPatch patch).setSuffix suffixes

/-- `func NewVersion() *Version` — the all-zero version. -/
def NewVersion : Version := ⟨0, 0, 0, ""⟩

/-- Decimal digit character for `n < 10`, as produced by `fmt.Sprintf("%d", _)`
and consumed by `strconv.Atoi`. -/
def digitChar (n : Nat) : Char :=
  if n = 0 then '0' else if n = 1 then '1' else if n = 2 then '2'
  else if n = 3 then '3' else if n = 4 then '4' else if n = 5 then '5'
  else if n = 6 then '6' else if n = 7 then '7' else if n = 8 then '8'
  else '9'

/-- Fuelled decimal printer (most significant digit first); `fuel ≥ n + 1`
suffices. Structural recursion keeps kernel evaluation available. -/
def natReprGo (fuel n : Nat) : List Char :=
  match fuel with
  | 0 => []
  | fuel + 1 =>
    if n < 10 then [digitChar n]
    else natReprGo fuel (n / 10) ++ [digitChar (n % 10)]

/-- Decimal representation of a natural number, as `fmt.Sprintf("%d", _)`
prints it. -/
def natRepr (n : Nat) : List Char := natReprGo (n + 1) n

/-- `fmt.Sprintf("%d", i)` for a (64-bit) Go `int`. -/
def intRepr (i : Int) : List Char :=
  if i < 0 then '-' :: natRepr i.natAbs else natRepr i.toNat

/-- `func (v *Version) String() string` — elides zero minor/patch (minor is
shown whenever minor or patch is non-zero; patch whenever patch is non-zero)
and appends `-suffix` when the suffix is non-empty. -/
def Version.toString (v : Version) : String :=
  let s : List Char :=
    if v.minor = 0 ∧ v.patch = 0 then 'v' :: intRepr v.major
    else if v.patch = 0 then
      'v' :: (intRepr v.major ++ '.' :: intRepr v.minor)
    else
      'v' :: (intRepr v.major ++ '.' :: intRepr v.minor ++ '.' :: intRepr v.patch)
  String.mk (if v.suffix ≠ "" then s ++ '-' :: v.suffix.data else s)

/-- Numeric value of a digit character. -/
def charToDigit (c : Char) : Nat := c.toNat - 48

/-- Value of a run of decimal digits (most significant first). -/
def digitsToNat (l : List Char) : Nat :=
  l.foldl (fun acc c => acc * 10 + charToDigit c) 0

/-- Model of Go `strconv.Atoi` on a 64-bit platform: optional sign, decimal
digits, error on empty/non-numeric input and on values outside
`[-2^63, 2^63 - 1]`. -/
def goAtoi (l : List Char) : Except Unit Int :=
  let sign : Bool := l.headD ' ' = '-'
  let digits : List Char :=
    if l.headD ' ' = '-' ∨ l.headD ' ' = '+' then l.tail else l
  if digits = [] ∨ ¬ digits.all Char.isDigit then .error ()
  else
    let x : Int := if sign then -(digitsToNat digits : Int)
                   else (digitsToNat digits : Int)
    if x < -(2 ^ 63 : Int) ∨ (2 ^ 63 : Int) - 1 < x then .error () else .ok x

/-- After group 1, `-{0,1}` greedily consumes a single hyphen; group 2 starts
at the remainder. -/
def stripHyphen : List Char → List Char
  | '-' :: rest => rest
  | l => l

/-- `(.*)` under Go's default flags (`DotNL` unset): `.` does not match a
newline, so the greedy star captures the maximal newline-free run. -/
def dotStar (l : List Char) : List Char := l.takeWhile (fun c => c != '\n')

/-- Matching of `((?:\d+\.){0,2}\d+)-{0,1}(.*)` at a position whose head is a
digit: group 1 greedily takes up to three dot-separated digit runs (a
`run.` iteration is only kept when a digit follows the dot, which is exactly
how greedy backtracking resolves this pattern — `\d+` runs are maximal, and
`(.*)`, which can be empty, makes everything after group 1 always succeed).
Group 2 is the maximal newline-free run after the optional hyphen (`.` does
not match `\n` under Go's default flags). Returns (group 1, group 2). -/
def matchFrom (l : List Char) : List Char × List Char :=
  let d1 := l.takeWhile Char.isDigit
  let r1 := l.dropWhile Char.isDigit
  match r1 with
  | '.' :: c :: r1' =>
    if c.isDigit then
      let d2 := (c :: r1').takeWhile Char.isDigit
      let r2 := (c :: r1').dropWhile Char.isDigit
      match r2 with
      | '.' :: c2 :: r2' =>
        if c2.isDigit then
          let d3 := (c2 :: r2').takeWhile Char.isDigit
          let r3 := (c2 :: r2').dropWhile Char.isDigit
          (d1 ++ '.' :: d2 ++ '.' :: d3, dotStar (stripHyphen r3))
        else (d1 ++ '.' :: d2, dotStar (stripHyphen r2))
      | _ => (d1 ++ '.' :: d2, dotStar (stripHyphen r2))
    else (d1, dotStar (stripHyphen r1))
  | _ => (d1, dotStar (stripHyphen r1))

/-- `reSemVer.FindStringSubmatch`: the unanchored leftmost match of
`(?:v|V|)((?:\d+\.){0,2}\d+)-{0,1}(.*)`. A match starts at the leftmost
position holding a digit, or holding `v`/`V` immediately followed by a digit
(the preferred alternative consumes the `v`); a newline never prevents a
match since `(.*)` may be empty, it only ends group 2 early. `none`
corresponds to `len(matches) != 3` (no match at all). -/
def findMatch : List Char → Option (List Char × List Char)
  | [] => none
  | c :: rest =>
    if c.isDigit then some (matchFrom (c :: rest))
    else if (c = 'v' ∨ c = 'V') ∧ (rest.headD ' ').isDigit then
      some (matchFrom rest)
    else findMatch rest

/-- `strings.Split(s, ".")` on the underlying characters (`Split` on an empty
string yields one empty piece). -/
def splitOnDot : List Char → List (List Char)
  | [] => [[]]
  | c :: rest =>
    if c = '.' then [] :: splitOnDot rest
    else
      match splitOnDot rest with
      | [] => [[c]]
      | p :: ps => (c :: p) :: ps

/-- `func NewVersionFromString(str string) (*Version, error)`, returning the
(version, error) pair exactly as the Go code does: the zero version is
allocated first, fields are set as each component parses, and every error
return carries the version in its state at that point. -/
def NewVersionFromString (str : String) : Version × Option String :=
  let version : Version := ⟨0, 0, 0, ""⟩
  match findMatch str.data with
  | none => (version, some ("invalid version format: " ++ str))
  | some (g1, g2) =>
    let versionNumbers := splitOnDot g1
    if versionNumbers.length < 1 ∨ versionNumbers.length > 3 then
      (version, some ("invalid version format: " ++ str))
    else
      match versionNumbers with
      | [] => (version, some ("invalid version format: " ++ str))
      | n0 :: ns =>
        match goAtoi n0 with
        | .error _ => (version, some ("invalid major version: " ++ String.mk n0))
        | .ok major =>
          let version := version.setMajor major
          match ns with
          | [] => (version.setSuffix [String.mk g2], none)
          | n1 :: ns2 =>
            match goAtoi n1 with
            | .error _ =>
              (version, some ("invalid minor version: " ++ String.mk n1))
            | .ok minor =>
              let version := version.setMinor minor
              match ns2 with
              | [] => (version.setSuffix [String.mk g2], none)
              | n2 :: _ =>
                match goAtoi n2 with
                | .error _ =>
                  (version, some ("invalid patch version: " ++ String.mk n2))
                | .ok patch =>
                  ((version.setPatch patch).setSuffix [String.mk g2], none)

/-- `func (v *Version) SetFromString(str string) *Version`, modelled as
(receiver state after the call, state of the returned instance): the Go method
never writes through `v`; on parse failure it returns `v` itself, on success
it returns the freshly parsed instance. -/
def Version.setFromString (v : Version) (str : String) : Version × Version :=
  match NewVersionFromString str with
  | (_, some _) => (v, v)
  | (version, none) => (v, version)

/-- `func IsValidVersionString(version string) bool`. -/
def IsValidVersionString (version : String) : Bool :=
  (NewVersionFromString version).2 = none

/-- Go's `<` on strings compares byte-wise (lexicographically); on valid UTF-8
this coincides with code-point-wise lexicographic comparison of the character
lists, modelled here by structural recursion. -/
def listCharLt : List Char → List Char → Bool
  | _, [] => false
  | [], _ :: _ => true
  | a :: as, b :: bs =>
    if a < b then true else if b < a then false else listCharLt as bs

/-- `a < b` on Go strings. -/
def goStringLt (a b : String) : Bool := listCharLt a.data b.data

/-- The `less` closure passed to `sort.Slice` in `SortVersions`: major, then
minor, then patch numerically, then suffix by plain lexicographic string
order. -/
def versionLess (a b : Version) : Bool :=
  if a.major ≠ b.major then a.major < b.major
  else if a.minor ≠ b.minor then a.minor < b.minor
  else if a.patch ≠ b.patch then a.patch < b.patch
  else goStringLt a.suffix b.suffix

/-- The non-strict order induced by `versionLess`; `sort.Slice` guarantees its
output is non-decreasing with respect to this relation. -/
def versionLE (a b : Version) : Bool := ! versionLess b a

/-- `func SortVersions(versions []*Version)` — a comparison sort by
`versionLess`, modelled with `List.mergeSort`. -/
def SortVersions (versions : List Version) : List Version :=
  versions.mergeSort versionLE

/-- The lexicographic key (major, minor, patch, suffix) that characterises the
comparator's order (proof tool, not part of the Go code). -/
def versionKey (v : Version) : Int ×ₗ (Int ×ₗ (Int ×ₗ String)) :=
  toLex (v.major, toLex (v.minor, toLex (v.patch, v.suffix)))

/-! ### Helper lemmas about digits and the decimal printer -/

theorem digitChar_isDigit {n : Nat} (h : n < 10) : (digitChar n).isDigit = true := by
  unfold digitChar
  interval_cases n <;> simp

theorem charToDigit_digitChar {n : Nat} (h : n < 10) :
    charToDigit (digitChar n) = n := by
  unfold digitChar charToDigit
  interval_cases n <;> simp

theorem isDigit_ne_dot {c : Char} (h : c.isDigit = true) : c ≠ '.' := by
  intro hc; subst hc; simp [Char.isDigit] at h

theorem isDigit_ne_hyphen {c : Char} (h : c.isDigit = true) : c ≠ '-' := by
  intro hc; subst hc; simp [Char.isDigit] at h

theorem isDigit_ne_plus {c : Char} (h : c.isDigit = true) : c ≠ '+' := by
  intro hc; subst hc; simp [Char.isDigit] at h

theorem digitsToNat_append (l : List Char) (c : Char) :
    digitsToNat (l ++ [c]) = digitsToNat l * 10 + charToDigit c := by
  simp [digitsToNat, List.foldl_append]

theorem natReprGo_spec :
    ∀ fuel n, n < fuel →
      natReprGo fuel n ≠ [] ∧ (∀ c ∈ natReprGo fuel n, c.isDigit = true) ∧
        digitsToNat (natReprGo fuel n) = n := by
  intro fuel
  induction fuel with
  | zero => omega
  | succ fuel ih =>
    intro n hn
    by_cases h10 : n < 10
    · refine ⟨by simp [natReprGo, h10], ?_, ?_⟩
      · intro c hc
        simp [natReprGo, h10] at hc
        subst hc; exact digitChar_isDigit h10
      · simp [natReprGo, h10, digitsToNat, List.foldl, charToDigit_digitChar h10]
    · have hdiv : n / 10 < fuel := by omega
      obtain ⟨hne, hdig, hval⟩ := ih (n / 10) hdiv
      have hmod : n % 10 < 10 := Nat.mod_lt _ (by omega)
      refine ⟨by simp [natReprGo, h10], ?_, ?_⟩
      · intro c hc
        simp only [natReprGo, h10, if_false, List.mem_append,
          List.mem_singleton] at hc
        rcases hc with hc | hc
        · exact hdig c hc
        · subst hc; exact digitChar_isDigit hmod
      · simp only [natReprGo, h10, if_false, digitsToNat_append, hval,
          charToDigit_digitChar hmod]
        omega

theorem natRepr_ne_nil (n : Nat) : natRepr n ≠ [] :=
  (natReprGo_spec (n + 1) n (by omega)).1

theorem natRepr_all_digits (n : Nat) : ∀ c ∈ natRepr n, c.isDigit = true :=
  (natReprGo_spec (n + 1) n (by omega)).2.1

theorem digitsToNat_natRepr (n : Nat) : digitsToNat (natRepr n) = n :=
  (natReprGo_spec (n + 1) n (by omega)).2.2

theorem intRepr_of_nonneg {i : Int} (h : 0 ≤ i) : intRepr i = natRepr i.toNat := by
  simp [intRepr, Int.not_lt.mpr h]

/-! ### Helper lemmas about list splitting and scanning -/

theorem takeWhile_digits_append {d tail : List Char}
    (hd : ∀ c ∈ d, c.isDigit = true) (ht : (tail.headD ' ').isDigit = false) :
    (d ++ tail).takeWhile Char.isDigit = d := by
  rw [List.takeWhile_append_of_pos hd]
  cases tail with
  | nil => simp
  | cons c t => simp_all [List.takeWhile_cons]

theorem dropWhile_digits_append {d tail : List Char}
    (hd : ∀ c ∈ d, c.isDigit = true) (ht : (tail.headD ' ').isDigit = false) :
    (d ++ tail).dropWhile Char.isDigit = tail := by
  rw [List.dropWhile_append_of_pos hd]
  cases tail with
  | nil => simp
  | cons c t => simp_all [List.dropWhile_cons]

theorem splitOnDot_of_no_dot {l : List Char} (h : ∀ c ∈ l, c ≠ '.') :
    splitOnDot l = [l] := by
  induction l with
  | nil => rfl
  | cons c t ih =>
    have hc : c ≠ '.' := h c (by simp)
    have ht : splitOnDot t = [t] := ih fun x hx => h x (by simp [hx])
    simp [splitOnDot, hc, ht]

theorem splitOnDot_append {a : List Char} (b : List Char) (h : ∀ c ∈ a, c ≠ '.') :
    splitOnDot (a ++ '.' :: b) = a :: splitOnDot b := by
  induction a with
  | nil => simp [splitOnDot]
  | cons c t ih =>
    have hc : c ≠ '.' := h c (by simp)
    have ht := ih fun x hx => h x (by simp [hx])
    simp [splitOnDot, hc, ht]

/-! ### Helper lemmas about `goAtoi` -/

theorem goAtoi_digits {d : List Char} (hne : d ≠ [])
    (hd : ∀ c ∈ d, c.isDigit = true)
    (hbound : (digitsToNat d : Int) ≤ 2 ^ 63 - 1) :
    goAtoi d = .ok (digitsToNat d) := by
  obtain ⟨c, t, rfl⟩ := List.exists_cons_of_ne_nil hne
  have hc : c.isDigit = true := hd c (by simp)
  have hminus : c ≠ '-' := isDigit_ne_hyphen hc
  have hplus : c ≠ '+' := isDigit_ne_plus hc
  have hall : (c :: t).all Char.isDigit = true := List.all_eq_true.mpr hd
  simp only [goAtoi, List.headD_cons, hminus, hplus, or_self, if_false,
    reduceCtorEq, hall, Bool.not_true, or_false, if_neg, false_or]
  have h0 : (0 : Int) ≤ (digitsToNat (c :: t) : Int) := Int.ofNat_nonneg _
  rw [if_neg (by simp [hminus]), if_neg (by omega)]
  simp

/-! ### Helper lemmas about `matchFrom` and `findMatch` -/

theorem headD_tail_not_digit {tail : List Char}
    (ht : tail = [] ∨ ∃ s, tail = '-' :: s) :
    (tail.headD ' ').isDigit = false := by
  rcases ht with rfl | ⟨s, rfl⟩
  · decide
  · simp only [List.headD_cons]; decide

theorem matchFrom_one {d tail : List Char} (hne : d ≠ [])
    (hd : ∀ c ∈ d, c.isDigit = true)
    (ht : tail = [] ∨ ∃ s, tail = '-' :: s) :
    matchFrom (d ++ tail) = (d, dotStar (stripHyphen tail)) := by
  have ht' := headD_tail_not_digit ht
  simp only [matchFrom]
  rw [takeWhile_digits_append hd ht', dropWhile_digits_append hd ht']
  rcases ht with rfl | ⟨s, rfl⟩
  · rfl
  · rfl

theorem matchFrom_two {d1 d2 tail : List Char} (h1 : d1 ≠ []) (h2 : d2 ≠ [])
    (hd1 : ∀ c ∈ d1, c.isDigit = true) (hd2 : ∀ c ∈ d2, c.isDigit = true)
    (ht : tail = [] ∨ ∃ s, tail = '-' :: s) :
    matchFrom (d1 ++ '.' :: (d2 ++ tail))
      = (d1 ++ '.' :: d2, dotStar (stripHyphen tail)) := by
  have ht' := headD_tail_not_digit ht
  have hdot : ((('.' :: (d2 ++ tail)) : List Char).headD ' ').isDigit = false := by
    simp only [List.headD_cons]; decide
  obtain ⟨c2, t2, rfl⟩ := List.exists_cons_of_ne_nil h2
  have hc2 : c2.isDigit = true := hd2 c2 (by simp)
  simp only [matchFrom]
  rw [takeWhile_digits_append hd1 hdot, dropWhile_digits_append hd1 hdot]
  simp only [List.cons_append, hc2, if_true]
  rw [show c2 :: (t2 ++ tail) = (c2 :: t2) ++ tail from rfl,
    takeWhile_digits_append hd2 ht', dropWhile_digits_append hd2 ht']
  rcases ht with rfl | ⟨s, rfl⟩
  · rfl
  · rfl

theorem matchFrom_three {d1 d2 d3 tail : List Char}
    (h1 : d1 ≠ []) (h2 : d2 ≠ []) (h3 : d3 ≠ [])
    (hd1 : ∀ c ∈ d1, c.isDigit = true) (hd2 : ∀ c ∈ d2, c.isDigit = true)
    (hd3 : ∀ c ∈ d3, c.isDigit = true)
    (ht : tail = [] ∨ ∃ s, tail = '-' :: s) :
    matchFrom (d1 ++ '.' :: (d2 ++ '.' :: (d3 ++ tail)))
      = (d1 ++ '.' :: d2 ++ '.' :: d3, dotStar (stripHyphen tail)) := by
  have ht' := headD_tail_not_digit ht
  have hdot1 : ((('.' :: (d2 ++ '.' :: (d3 ++ tail))) : List Char).headD ' ').isDigit
      = false := by
    simp only [List.headD_cons]; decide
  have hdot2 : ((('.' :: (d3 ++ tail)) : List Char).headD ' ').isDigit = false := by
    simp only [List.headD_cons]; decide
  obtain ⟨c2, t2, rfl⟩ := List.exists_cons_of_ne_nil h2
  obtain ⟨c3, t3, rfl⟩ := List.exists_cons_of_ne_nil h3
  have hc2 : c2.isDigit = true := hd2 c2 (by simp)
  have hc3 : c3.isDigit = true := hd3 c3 (by simp)
  simp only [matchFrom]
  rw [takeWhile_digits_append hd1 hdot1, dropWhile_digits_append hd1 hdot1]
  simp only [List.cons_append, hc2, if_true]
  rw [show c2 :: (t2 ++ '.' :: c3 :: (t3 ++ tail))
        = (c2 :: t2) ++ '.' :: ((c3 :: t3) ++ tail) from rfl,
    takeWhile_digits_append hd2 hdot2, dropWhile_digits_append hd2 hdot2]
  simp only [List.cons_append, hc3, if_true]
  rw [show c3 :: (t3 ++ tail) = (c3 :: t3) ++ tail from rfl,
    takeWhile_digits_append hd3 ht', dropWhile_digits_append hd3 ht']

theorem findMatch_v {l : List Char} (h : (l.headD ' ').isDigit = true) :
    findMatch ('v' :: l) = some (matchFrom l) := by
  cases l with
  | nil => simp at h
  | cons c t =>
    simp only [List.headD_cons] at h
    simp only [findMatch]
    split
    · rename_i hv
      exact absurd hv (by decide)
    · split
      · rfl
      · rename_i hcond
        exact absurd ⟨by simp, by simpa using h⟩ hcond

theorem splitOnDot_two {a b : List Char} (ha : ∀ c ∈ a, c ≠ '.')
    (hb : ∀ c ∈ b, c ≠ '.') : splitOnDot (a ++ '.' :: b) = [a, b] := by
  rw [splitOnDot_append _ ha, splitOnDot_of_no_dot hb]

theorem splitOnDot_three {a b c : List Char} (ha : ∀ x ∈ a, x ≠ '.')
    (hb : ∀ x ∈ b, x ≠ '.') (hc : ∀ x ∈ c, x ≠ '.') :
    splitOnDot (a ++ '.' :: b ++ '.' :: c) = [a, b, c] := by
  rw [List.append_assoc, List.cons_append, splitOnDot_append _ ha,
    splitOnDot_append _ hb, splitOnDot_of_no_dot hc]

theorem matchFrom_pieces {l : List Char} (h : (l.headD ' ').isDigit = true) :
    ∀ p ∈ splitOnDot (matchFrom l).1, p ≠ [] ∧ ∀ c ∈ p, c.isDigit = true := by
  cases l with
  | nil => simp at h
  | cons c t =>
    simp only [List.headD_cons] at h
    have hd1ne : (c :: t).takeWhile Char.isDigit ≠ [] := by
      simp [List.takeWhile_cons, h]
    have hd1dig : ∀ x ∈ (c :: t).takeWhile Char.isDigit, x.isDigit = true :=
      fun x hx => List.mem_takeWhile_imp hx
    have hd1dot : ∀ x ∈ (c :: t).takeWhile Char.isDigit, x ≠ '.' :=
      fun x hx => isDigit_ne_dot (hd1dig x hx)
    simp only [matchFrom]
    split
    · rename_i c1 r1' heq
      have hd2dig : ∀ x ∈ (c1 :: r1').takeWhile Char.isDigit, x.isDigit = true :=
        fun x hx => List.mem_takeWhile_imp hx
      have hd2dot : ∀ x ∈ (c1 :: r1').takeWhile Char.isDigit, x ≠ '.' :=
        fun x hx => isDigit_ne_dot (hd2dig x hx)
      split
      · rename_i hc1
        have hd2ne : (c1 :: r1').takeWhile Char.isDigit ≠ [] := by
          simp [List.takeWhile_cons, hc1]
        split
        · rename_i c2 r2' heq2
          have hd3dig : ∀ x ∈ (c2 :: r2').takeWhile Char.isDigit, x.isDigit = true :=
            fun x hx => List.mem_takeWhile_imp hx
          have hd3dot : ∀ x ∈ (c2 :: r2').takeWhile Char.isDigit, x ≠ '.' :=
            fun x hx => isDigit_ne_dot (hd3dig x hx)
          split
          · rename_i hc2
            have hd3ne : (c2 :: r2').takeWhile Char.isDigit ≠ [] := by
              simp [List.takeWhile_cons, hc2]
            intro p hp
            rw [show ((c :: t).takeWhile Char.isDigit ++
                  '.' :: (c1 :: r1').takeWhile Char.isDigit ++
                  '.' :: (c2 :: r2').takeWhile Char.isDigit,
                  dotStar (stripHyphen ((c2 :: r2').dropWhile Char.isDigit))).1
                = (c :: t).takeWhile Char.isDigit ++
                  '.' :: (c1 :: r1').takeWhile Char.isDigit ++
                  '.' :: (c2 :: r2').takeWhile Char.isDigit from rfl,
              splitOnDot_three hd1dot hd2dot hd3dot] at hp
            simp only [List.mem_cons, List.not_mem_nil, or_false] at hp
            rcases hp with rfl | rfl | rfl
            · exact ⟨hd1ne, hd1dig⟩
            · exact ⟨hd2ne, hd2dig⟩
            · exact ⟨hd3ne, hd3dig⟩
          · intro p hp
            rw [show ((c :: t).takeWhile Char.isDigit ++
                  '.' :: (c1 :: r1').takeWhile Char.isDigit,
                  dotStar (stripHyphen ((c1 :: r1').dropWhile Char.isDigit))).1
                = (c :: t).takeWhile Char.isDigit ++
                  '.' :: (c1 :: r1').takeWhile Char.isDigit from rfl,
              splitOnDot_two hd1dot hd2dot] at hp
            simp only [List.mem_cons, List.not_mem_nil, or_false] at hp
            rcases hp with rfl | rfl
            · exact ⟨hd1ne, hd1dig⟩
            · exact ⟨hd2ne, hd2dig⟩
        · intro p hp
          rw [show ((c :: t).takeWhile Char.isDigit ++
                '.' :: (c1 :: r1').takeWhile Char.isDigit,
                dotStar (stripHyphen ((c1 :: r1').dropWhile Char.isDigit))).1
              = (c :: t).takeWhile Char.isDigit ++
                '.' :: (c1 :: r1').takeWhile Char.isDigit from rfl,
            splitOnDot_two hd1dot hd2dot] at hp
          simp only [List.mem_cons, List.not_mem_nil, or_false] at hp
          rcases hp with rfl | rfl
          · exact ⟨hd1ne, hd1dig⟩
          · exact ⟨hd2ne, hd2dig⟩
      · intro p hp
        rw [show ((c :: t).takeWhile Char.isDigit,
              dotStar (stripHyphen ((c :: t).dropWhile Char.isDigit))).1
            = (c :: t).takeWhile Char.isDigit from rfl,
          splitOnDot_of_no_dot hd1dot] at hp
        simp only [List.mem_singleton] at hp
        subst hp
        exact ⟨hd1ne, hd1dig⟩
    · intro p hp
      rw [show ((c :: t).takeWhile Char.isDigit,
            dotStar (stripHyphen ((c :: t).dropWhile Char.isDigit))).1
          = (c :: t).takeWhile Char.isDigit from rfl,
        splitOnDot_of_no_dot hd1dot] at hp
      simp only [List.mem_singleton] at hp
      subst hp
      exact ⟨hd1ne, hd1dig⟩

theorem findMatch_pieces : ∀ {l g1 g2 : List Char}, findMatch l = some (g1, g2) →
    ∀ p ∈ splitOnDot g1, p ≠ [] ∧ ∀ c ∈ p, c.isDigit = true := by
  intro l
  induction l with
  | nil => intro g1 g2 h; simp [findMatch] at h
  | cons c rest ih =>
    intro g1 g2 h
    simp only [findMatch] at h
    split at h
    · rename_i hc
      injection h with h
      intro p hp
      refine matchFrom_pieces (l := c :: rest) (by simpa using hc) p ?_
      rw [h]; exact hp
    · split at h
      · rename_i hcond
        injection h with h
        intro p hp
        refine matchFrom_pieces (l := rest) hcond.2 p ?_
        rw [h]; exact hp
      · exact ih h

theorem goAtoi_digits_overflow {d : List Char} (hne : d ≠ [])
    (hd : ∀ c ∈ d, c.isDigit = true)
    (hbound : (2 ^ 63 : Int) - 1 < (digitsToNat d : Int)) :
    goAtoi d = .error () := by
  obtain ⟨c, t, rfl⟩ := List.exists_cons_of_ne_nil hne
  have hc : c.isDigit = true := hd c (by simp)
  have hminus : c ≠ '-' := isDigit_ne_hyphen hc
  have hplus : c ≠ '+' := isDigit_ne_plus hc
  have hall : (c :: t).all Char.isDigit = true := List.all_eq_true.mpr hd
  simp only [goAtoi, List.headD_cons, hminus, hplus, or_self, if_false,
    reduceCtorEq, hall, Bool.not_true, or_false, false_or, not_true,
    decide_False, Bool.false_eq_true, ite_false]
  rw [if_pos (Or.inr hbound)]

theorem goAtoi_nonneg {l : List Char} {x : Int} (hne : l ≠ [])
    (hd : ∀ c ∈ l, c.isDigit = true) (h : goAtoi l = .ok x) : 0 ≤ x := by
  by_cases hb : (digitsToNat l : Int) ≤ 2 ^ 63 - 1
  · rw [goAtoi_digits hne hd hb] at h
    injection h with h
    subst h
    positivity
  · rw [goAtoi_digits_overflow hne hd (by omega)] at h
    exact absurd h (by simp)

/-! ### Helper lemmas about the comparator'\''s order -/

theorem listCharLt_iff :
    ∀ xs ys : List Char, listCharLt xs ys = true ↔ List.Lex (· < ·) xs ys := by
  intro xs
  induction xs with
  | nil =>
    intro ys
    cases ys with
    | nil => simp [listCharLt]
    | cons b bs => simp [listCharLt, List.Lex.nil]
  | cons a as ih =>
    intro ys
    cases ys with
    | nil => simp [listCharLt]
    | cons b bs =>
      by_cases hab : a < b
      · simp only [listCharLt, hab, if_true]
        exact ⟨fun _ => List.Lex.rel hab, fun _ => trivial⟩
      · by_cases hba : b < a
        · simp only [listCharLt, hab, hba, if_true, if_false]
          constructor
          · intro h
            exact absurd h (by simp)
          · intro h
            cases h with
            | cons h => exact absurd hba (lt_irrefl _)
            | rel h => exact absurd h hab
        · have hEq : a = b := le_antisymm (le_of_not_lt hba) (le_of_not_lt hab)
          subst hEq
          simp only [listCharLt, hab, hba, if_false]
          rw [ih bs]
          exact (List.Lex.cons_iff (r := (· < ·))).symm

theorem goStringLt_iff_lt {a b : String} : goStringLt a b = true ↔ a < b := by
  rw [String.lt_iff_toList_lt]
  exact listCharLt_iff a.data b.data

theorem versionLess_iff_key {a b : Version} :
    versionLess a b = true ↔ versionKey a < versionKey b := by
  unfold versionLess versionKey
  split_ifs with h1 h2 h3 <;>
    simp_all [Prod.Lex.lt_iff, goStringLt_iff_lt]

theorem versionKey_inj {a b : Version} (h : versionKey a = versionKey b) : a = b := by
  rcases a with ⟨ma, mi, pa, sa⟩
  rcases b with ⟨mb, nb, pb, sb⟩
  simp [versionKey, Prod.ext_iff] at h
  obtain ⟨h1, h2, h3, h4⟩ := h
  simp_all

theorem versionLE_iff_key {a b : Version} :
    versionLE a b = true ↔ versionKey a ≤ versionKey b := by
  rw [versionLE, Bool.not_eq_true', ← not_iff_not]
  simp [versionLess_iff_key, not_le]

/-! ### Helper lemmas about parsing formatted output and error shapes -/

theorem headD_digits_append {d tail : List Char} (hne : d ≠ [])
    (hd : ∀ c ∈ d, c.isDigit = true) : ((d ++ tail).headD ' ').isDigit = true := by
  obtain ⟨c, t, rfl⟩ := List.exists_cons_of_ne_nil hne
  simpa using hd c (by simp)

theorem mk_data_eq (s : String) : String.mk s.data = s := rfl

theorem parse_toString (ma mi pa : Int) (suf : String)
    (hma0 : 0 ≤ ma) (hma1 : ma ≤ 2 ^ 63 - 1)
    (hmi0 : 0 ≤ mi) (hmi1 : mi ≤ 2 ^ 63 - 1)
    (hpa0 : 0 ≤ pa) (hpa1 : pa ≤ 2 ^ 63 - 1)
    (hnl : '\n' ∉ suf.data) :
    NewVersionFromString (Version.toString ⟨ma, mi, pa, suf⟩) = (⟨ma, mi, pa, suf⟩, none) := by
  have hAne := natRepr_ne_nil ma.toNat
  have hAdig := natRepr_all_digits ma.toNat
  have hAdot : ∀ x ∈ natRepr ma.toNat, x ≠ '.' := fun x hx => isDigit_ne_dot (hAdig x hx)
  have goA : goAtoi (natRepr ma.toNat) = .ok ma := by
    rw [goAtoi_digits hAne hAdig (by rw [digitsToNat_natRepr]; omega),
      digitsToNat_natRepr, Int.toNat_of_nonneg hma0]
  have ht : (if suf = "" then ([] : List Char) else '-' :: suf.data) = [] ∨
      ∃ s, (if suf = "" then ([] : List Char) else '-' :: suf.data) = '-' :: s := by
    by_cases h : suf = "" <;> simp [h]
  have hstrip : dotStar (stripHyphen
      (if suf = "" then ([] : List Char) else '-' :: suf.data)) = suf.data := by
    have hall : ∀ c ∈ suf.data, (c != '\n') = true := by
      intro c hc
      rw [bne_iff_ne]
      intro heq
      exact hnl (heq ▸ hc)
    by_cases h : suf = ""
    · simp [h, stripHyphen, dotStar]
    · simp only [h, if_false, stripHyphen, dotStar]
      exact List.takeWhile_eq_self_iff.mpr hall
  by_cases hs1 : mi = 0 ∧ pa = 0
  · obtain ⟨h1, h2⟩ := hs1
    subst h1; subst h2
    have hdata : (Version.toString ⟨ma, 0, 0, suf⟩).data
        = 'v' :: (natRepr ma.toNat ++
            (if suf = "" then ([] : List Char) else '-' :: suf.data)) := by
      by_cases hsuf : suf = "" <;>
        simp [Version.toString, hsuf, intRepr_of_nonneg hma0]
    have hfm : findMatch (Version.toString ⟨ma, 0, 0, suf⟩).data
        = some (natRepr ma.toNat, suf.data) := by
      rw [hdata, findMatch_v (headD_digits_append hAne hAdig),
        matchFrom_one hAne hAdig ht, hstrip]
    have hsplit : splitOnDot (natRepr ma.toNat) = [natRepr ma.toNat] :=
      splitOnDot_of_no_dot hAdot
    simp [NewVersionFromString, hfm, hsplit, goA, Version.setMajor, Version.setSuffix,
      joinDots, mk_data_eq]
  · have hBne := natRepr_ne_nil mi.toNat
    have hBdig := natRepr_all_digits mi.toNat
    have hBdot : ∀ x ∈ natRepr mi.toNat, x ≠ '.' := fun x hx => isDigit_ne_dot (hBdig x hx)
    have goB : goAtoi (natRepr mi.toNat) = .ok mi := by
      rw [goAtoi_digits hBne hBdig (by rw [digitsToNat_natRepr]; omega),
        digitsToNat_natRepr, Int.toNat_of_nonneg hmi0]
    by_cases hs2 : pa = 0
    · subst hs2
      have hmi : mi ≠ 0 := fun h => hs1 ⟨h, rfl⟩
      have hdata : (Version.toString ⟨ma, mi, 0, suf⟩).data
          = 'v' :: (natRepr ma.toNat ++ '.' :: (natRepr mi.toNat ++
              (if suf = "" then ([] : List Char) else '-' :: suf.data))) := by
        by_cases hsuf : suf = "" <;>
          simp [Version.toString, hmi, hsuf, intRepr_of_nonneg hma0,
            intRepr_of_nonneg hmi0]
      have hfm : findMatch (Version.toString ⟨ma, mi, 0, suf⟩).data
          = some (natRepr ma.toNat ++ '.' :: natRepr mi.toNat, suf.data) := by
        rw [hdata, findMatch_v (headD_digits_append hAne hAdig),
          matchFrom_two hAne hBne hAdig hBdig ht, hstrip]
      have hsplit : splitOnDot (natRepr ma.toNat ++ '.' :: natRepr mi.toNat)
          = [natRepr ma.toNat, natRepr mi.toNat] := splitOnDot_two hAdot hBdot
      simp [NewVersionFromString, hfm, hsplit, goA, goB, Version.setMajor,
        Version.setMinor, Version.setSuffix, joinDots, mk_data_eq]
    · have hCne := natRepr_ne_nil pa.toNat
      have hCdig := natRepr_all_digits pa.toNat
      have hCdot : ∀ x ∈ natRepr pa.toNat, x ≠ '.' :=
        fun x hx => isDigit_ne_dot (hCdig x hx)
      have goC : goAtoi (natRepr pa.toNat) = .ok pa := by
        rw [goAtoi_digits hCne hCdig (by rw [digitsToNat_natRepr]; omega),
          digitsToNat_natRepr, Int.toNat_of_nonneg hpa0]
      have hmi : ¬ (mi = 0 ∧ pa = 0) := hs1
      have hdata : (Version.toString ⟨ma, mi, pa, suf⟩).data
          = 'v' :: (natRepr ma.toNat ++ '.' :: (natRepr mi.toNat ++ '.' ::
              (natRepr pa.toNat ++
                (if suf = "" then ([] : List Char) else '-' :: suf.data)))) := by
        by_cases hsuf : suf = "" <;>
          simp [Version.toString, hmi, hs2, hsuf, intRepr_of_nonneg hma0,
            intRepr_of_nonneg hmi0, intRepr_of_nonneg hpa0]
      have hfm : findMatch (Version.toString ⟨ma, mi, pa, suf⟩).data
          = some (natRepr ma.toNat ++ '.' :: natRepr mi.toNat ++ '.' ::
              natRepr pa.toNat, suf.data) := by
        rw [hdata, findMatch_v (headD_digits_append hAne hAdig),
          matchFrom_three hAne hBne hCne hAdig hBdig hCdig ht, hstrip]
      have hsplit : splitOnDot (natRepr ma.toNat ++ '.' :: (natRepr mi.toNat ++ '.' ::
          natRepr pa.toNat)) = [natRepr ma.toNat, natRepr mi.toNat, natRepr pa.toNat] := by
        rw [splitOnDot_append _ hAdot, splitOnDot_append _ hBdot,
          splitOnDot_of_no_dot hCdot]
      simp [NewVersionFromString, hfm, hsplit, goA, goB, goC, Version.setMajor,
        Version.setMinor, Version.setPatch, Version.setSuffix, joinDots, mk_data_eq]

theorem parse_error_shape (s : String) :
    (NewVersionFromString s).2.isSome →
      (NewVersionFromString s).1.patch = 0 ∧ (NewVersionFromString s).1.suffix = "" := by
  simp only [NewVersionFromString]
  split
  · intro _; exact ⟨rfl, rfl⟩
  · split
    · intro _; exact ⟨rfl, rfl⟩
    · split
      · intro _; exact ⟨rfl, rfl⟩
      · split
        · intro _; exact ⟨rfl, rfl⟩
        · split
          · simp
          · split
            · intro _; exact ⟨rfl, rfl⟩
            · split
              · simp
              · split
                · intro _; exact ⟨rfl, rfl⟩
                · simp

theorem parse_format_error_zero (s : String) (h : findMatch s.data = none) :
    NewVersionFromString s = (⟨0, 0, 0, ""⟩, some ("invalid version format: " ++ s)) := by
  unfold NewVersionFromString
  rw [h]

theorem parse_success_nonneg (s : String) :
    (NewVersionFromString s).2 = none →
      0 ≤ (NewVersionFromString s).1.major ∧ 0 ≤ (NewVersionFromString s).1.minor ∧
        0 ≤ (NewVersionFromString s).1.patch := by
  cases hfm : findMatch s.data with
  | none => simp [NewVersionFromString, hfm]
  | some g =>
    obtain ⟨g1, g2⟩ := g
    have hpieces := findMatch_pieces hfm
    simp only [NewVersionFromString, hfm]
    by_cases hlen : (splitOnDot g1).length < 1 ∨ (splitOnDot g1).length > 3
    · rw [if_pos hlen]
      simp
    · rw [if_neg hlen]
      cases hsp : splitOnDot g1 with
      | nil => simp
      | cons n0 ns =>
        have hn0 : n0 ∈ splitOnDot g1 := by rw [hsp]; simp
        cases hmaj : goAtoi n0 with
        | error e => simp [hmaj]
        | ok major =>
          have hmaj0 : 0 ≤ major :=
            goAtoi_nonneg (hpieces n0 hn0).1 (hpieces n0 hn0).2 hmaj
          cases ns with
          | nil =>
            simp [hmaj, hmaj0, Version.setMajor, Version.setSuffix]
          | cons n1 ns2 =>
            have hn1 : n1 ∈ splitOnDot g1 := by rw [hsp]; simp
            cases hmin : goAtoi n1 with
            | error e => simp [hmaj, hmin]
            | ok minor =>
              have hmin0 : 0 ≤ minor :=
                goAtoi_nonneg (hpieces n1 hn1).1 (hpieces n1 hn1).2 hmin
              cases ns2 with
              | nil =>
                simp [hmaj, hmin, hmaj0, hmin0, Version.setMajor, Version.setMinor,
                  Version.setSuffix]
              | cons n2 ns3 =>
                have hn2 : n2 ∈ splitOnDot g1 := by rw [hsp]; simp
                cases hpat : goAtoi n2 with
                | error e => simp [hmaj, hmin, hpat]
                | ok patch =>
                  have hpat0 : 0 ≤ patch :=
                    goAtoi_nonneg (hpieces n2 hn2).1 (hpieces n2 hn2).2 hpat
                  simp [hmaj, hmin, hpat, hmaj0, hmin0, hpat0, Version.setMajor,
                    Version.setMinor, Version.setPatch, Version.setSuffix]

/-! ### Claim theorems -/

/-- C1, counterexample: the claim asserts `isValidVersionString "1.2.3.4" = false`
(four numeric groups), but the unanchored regex captures only the first three
groups and leaves `".4"` to the suffix, so the parse succeeds. -/
theorem C1_counterexample : IsValidVersionString "1.2.3.4" = true := by decide

/-- C1 (amended): `isValidVersionString` returns true on `"v1.2.3-beta"`, false
on `"vX"`, and true on `"1.2.3.4"`: the regex captures at most three
dot-separated numeric groups, so on `"1.2.3.4"` the remainder `".4"` becomes
the suffix and the parse succeeds instead of failing. -/
theorem C1_amended :
    IsValidVersionString "v1.2.3-beta" = true ∧
    IsValidVersionString "vX" = false ∧
    IsValidVersionString "1.2.3.4" = true ∧
    NewVersionFromString "1.2.3.4" = (⟨1, 2, 3, ".4"⟩, none) := by
  refine ⟨by decide, by decide, by decide, by decide⟩

/-- C2, counterexample: the claim asserts every failing parse returns the
all-zero Version, but when a later component overflows `strconv.Atoi`
(`"1.99999999999999999999"`), the error return carries `major = 1` already
set by the preceding `SetMajor` call. -/
theorem C2_counterexample :
    (NewVersionFromString "1.99999999999999999999").2.isSome = true ∧
    (NewVersionFromString "1.99999999999999999999").1.major = 1 := by
  refine ⟨by decide, by decide⟩

/-- C2 (amended): whenever `NewVersionFromString` returns an error, the
returned Version has empty suffix and zero patch (fields from the failing
component onward are still zero), and when the pattern match itself fails the
returned Version is entirely zero-valued; components that converted
successfully before the failing one, however, remain set. -/
theorem C2_amended : ∀ s : String,
    ((NewVersionFromString s).2.isSome →
      (NewVersionFromString s).1.patch = 0 ∧ (NewVersionFromString s).1.suffix = "") ∧
    (findMatch s.data = none →
      NewVersionFromString s = (⟨0, 0, 0, ""⟩, some ("invalid version format: " ++ s))) :=
  fun s => ⟨parse_error_shape s, parse_format_error_zero s⟩

/-- C2 witness: the amended claim instantiated at the digit-free input `"x"`. -/
theorem C2_witness :
    ((NewVersionFromString "x").2.isSome = true ∧
      (NewVersionFromString "x").1.patch = 0 ∧ (NewVersionFromString "x").1.suffix = "") ∧
    NewVersionFromString "x" = (⟨0, 0, 0, ""⟩, some ("invalid version format: " ++ "x")) :=
  ⟨⟨by decide, (C2_amended "x").1 (by decide)⟩, (C2_amended "x").2 (by decide)⟩

/-- C3, counterexample: the claim asserts that after `v.SetFromString` with a
valid string, `v` itself holds the parsed values; in fact `SetFromString`
never writes through its receiver — it returns a fresh instance, and the
receiver keeps its old fields. -/
theorem C3_counterexample :
    ¬ ((Version.setFromString ⟨1, 2, 3, ""⟩ "v4.5.6").1 = ⟨4, 5, 6, ""⟩) := by decide

/-- C3 (amended): `SetMajor`, `SetMinor`, `SetPatch`, `SetSuffix` and `Set`
apply their effect in place and return the same instance; `SetFromString`
never mutates the receiver: on success it returns a freshly parsed instance
(the receiver keeps its old fields), on failure it returns the receiver
unchanged. -/
theorem C3_amended :
    (∀ (v : Version) (n : Int), v.setMajor n = ⟨n, v.minor, v.patch, v.suffix⟩) ∧
    (∀ (v : Version) (n : Int), v.setMinor n = ⟨v.major, n, v.patch, v.suffix⟩) ∧
    (∀ (v : Version) (n : Int), v.setPatch n = ⟨v.major, v.minor, n, v.suffix⟩) ∧
    (∀ (v : Version) (ma mi pa : Int) (ss : List String),
      v.set ma mi pa ss = ⟨ma, mi, pa, if ss.length > 0 then joinDots ss else ""⟩) ∧
    (∀ (v : Version) (s : String), (v.setFromString s).1 = v) ∧
    (∀ (v : Version) (s : String), (NewVersionFromString s).2 = none →
      (v.setFromString s).2 = (NewVersionFromString s).1) ∧
    (∀ (v : Version) (s : String), (NewVersionFromString s).2 ≠ none →
      (v.setFromString s).2 = v) := by
  refine ⟨fun v n => rfl, fun v n => rfl, fun v n => rfl, fun v ma mi pa ss => rfl,
    ?_, ?_, ?_⟩
  · intro v s
    unfold Version.setFromString
    split
    · rfl
    · rfl
  · intro v s h
    unfold Version.setFromString
    split
    · rename_i ver e heq
      rw [heq] at h
      simp at h
    · rename_i ver heq
      rw [heq]
  · intro v s h
    unfold Version.setFromString
    split
    · rfl
    · rename_i ver heq
      rw [heq] at h
      simp at h

/-- C3 witness: `SetFromString` on the receiver `⟨9,9,9,"z"⟩` with the valid
input `"v4.5.6"` and the invalid input `"x"`. -/
theorem C3_witness :
    (Version.setFromString ⟨9, 9, 9, "z"⟩ "v4.5.6").2 = (NewVersionFromString "v4.5.6").1 ∧
    (Version.setFromString ⟨9, 9, 9, "z"⟩ "x").2 = ⟨9, 9, 9, "z"⟩ :=
  ⟨C3_amended.2.2.2.2.2.1 ⟨9, 9, 9, "z"⟩ "v4.5.6" (by decide),
    C3_amended.2.2.2.2.2.2 ⟨9, 9, 9, "z"⟩ "x" (by decide)⟩

/-- C4 (confirmed): the comparator order (major, then minor, then patch
numerically, then suffix lexicographically) is reflexive, antisymmetric,
transitive and total, and `SortVersions` produces a pairwise non-decreasing
permutation of its input. -/
theorem C4_total_order_sorted :
    (∀ a : Version, versionLE a a = true) ∧
    (∀ a b : Version, versionLE a b = true → versionLE b a = true → a = b) ∧
    (∀ a b c : Version, versionLE a b = true → versionLE b c = true →
      versionLE a c = true) ∧
    (∀ a b : Version, versionLE a b || versionLE b a) ∧
    (∀ l : List Version,
      (SortVersions l).Pairwise (fun a b => versionLE a b = true) ∧
        (SortVersions l).Perm l) := by
  have htrans : ∀ a b c : Version, versionLE a b = true → versionLE b c = true →
      versionLE a c = true := fun a b c h1 h2 =>
    versionLE_iff_key.mpr (le_trans (versionLE_iff_key.mp h1) (versionLE_iff_key.mp h2))
  have htotal : ∀ a b : Version, versionLE a b || versionLE b a := by
    intro a b
    rcases le_total (versionKey a) (versionKey b) with h | h
    · simp [versionLE_iff_key.mpr h]
    · simp [versionLE_iff_key.mpr h]
  refine ⟨fun a => versionLE_iff_key.mpr le_rfl,
    fun a b h1 h2 =>
      versionKey_inj (le_antisymm (versionLE_iff_key.mp h1) (versionLE_iff_key.mp h2)),
    htrans, htotal, fun l => ⟨?_, List.mergeSort_perm l versionLE⟩⟩
  exact List.sorted_mergeSort htrans htotal l

/-- C4 witness: antisymmetry and transitivity instantiated at concrete
versions. -/
theorem C4_witness :
    (⟨1, 2, 3, "x"⟩ : Version) = ⟨1, 2, 3, "x"⟩ ∧
    versionLE ⟨1, 0, 0, ""⟩ ⟨2, 5, 0, "a"⟩ = true :=
  ⟨C4_total_order_sorted.2.1 ⟨1, 2, 3, "x"⟩ ⟨1, 2, 3, "x"⟩ (by decide) (by decide),
    C4_total_order_sorted.2.2.1 ⟨1, 0, 0, ""⟩ ⟨1, 9, 9, "b"⟩ ⟨2, 5, 0, "a"⟩
      (by decide) (by decide)⟩

/-- C5, counterexample: the round trip fails for a suffix containing a
newline: `⟨0,0,0,"a\nb"⟩` formats to `"v0-a\nb"`, but `(.*)` does not match
`\n`, so reparsing captures only `"a"` as the suffix. -/
theorem C5_counterexample :
    NewVersionFromString (Version.toString ⟨0, 0, 0, "a\nb"⟩)
      ≠ (⟨0, 0, 0, "a\nb"⟩, none) ∧
    NewVersionFromString (Version.toString ⟨0, 0, 0, "a\nb"⟩)
      = (⟨0, 0, 0, "a"⟩, none) := by
  refine ⟨by decide, by decide⟩

/-- C5 (amended): parsing the formatted string of any Version whose numeric
components are non-negative (and representable as a 64-bit Go `int`, which
every Go value is) and whose suffix contains no newline character returns that
Version field-for-field, with no error — leading-hyphen and digit/dot suffixes
included. A newline in the suffix truncates the reparsed suffix, since `.`
does not match `\n`. -/
theorem C5_roundtrip (ma mi pa : Int) (suf : String)
    (hma0 : 0 ≤ ma) (hma1 : ma ≤ 2 ^ 63 - 1)
    (hmi0 : 0 ≤ mi) (hmi1 : mi ≤ 2 ^ 63 - 1)
    (hpa0 : 0 ≤ pa) (hpa1 : pa ≤ 2 ^ 63 - 1)
    (hnl : '\n' ∉ suf.data) :
    NewVersionFromString (Version.toString ⟨ma, mi, pa, suf⟩)
      = (⟨ma, mi, pa, suf⟩, none) :=
  parse_toString ma mi pa suf hma0 hma1 hmi0 hmi1 hpa0 hpa1 hnl

/-- C5 witness: the round trip instantiated at `v1.2.3-beta`. -/
theorem C5_witness :
    NewVersionFromString (Version.toString ⟨1, 2, 3, "beta"⟩)
      = (⟨1, 2, 3, "beta"⟩, none) :=
  C5_roundtrip 1 2 3 "beta" (by decide) (by decide) (by decide) (by decide)
    (by decide) (by decide) (by decide)

/-- C6 (confirmed): the formatter emits `v` plus major, includes minor exactly
when minor or patch is non-zero, includes patch exactly when patch is
non-zero, and appends `-suffix` exactly when the suffix is non-empty; the
concrete elision examples follow. -/
theorem C6_format_rule :
    (∀ v : Version, v.toString = String.mk (('v' :: intRepr v.major) ++
        (if v.minor ≠ 0 ∨ v.patch ≠ 0 then '.' :: intRepr v.minor else []) ++
        (if v.patch ≠ 0 then '.' :: intRepr v.patch else []) ++
        (if v.suffix ≠ "" then '-' :: v.suffix.data else []))) ∧
    NewVersion.toString = "v0" ∧
    (NewVersion.set 1 0 0 []).toString = "v1" ∧
    (NewVersion.set 1 2 0 []).toString = "v1.2" ∧
    (NewVersion.set 1 0 3 []).toString = "v1.0.3" ∧
    (NewVersion.set 1 2 3 []).toString = "v1.2.3" := by
  refine ⟨?_, by decide, by decide, by decide, by decide, by decide⟩
  intro v
  rcases v with ⟨ma, mi, pa, suf⟩
  by_cases hmi : mi = 0 <;> by_cases hpa : pa = 0 <;> by_cases hs : suf = "" <;>
    simp [Version.toString, hmi, hpa, hs, List.append_assoc]

/-- C7 (confirmed): `SetFromString` is a silent no-op on failure — for every
receiver `v` and every string that does not parse, both the receiver state
and the returned instance are `v`, all four fields unchanged. -/
theorem C7_setFromString_noop (v : Version) (s : String)
    (h : (NewVersionFromString s).2 ≠ none) :
    v.setFromString s = (v, v) := by
  unfold Version.setFromString
  split
  · rfl
  · rename_i ver heq
    rw [heq] at h
    simp at h

/-- C7 witness: `Set(1,2,3)` followed by `SetFromString "garbage"` leaves the
version at `1.2.3`. -/
theorem C7_witness :
    (NewVersionFromString "garbage").2 ≠ none ∧
    Version.setFromString ⟨1, 2, 3, ""⟩ "garbage" = (⟨1, 2, 3, ""⟩, ⟨1, 2, 3, ""⟩) :=
  ⟨by decide, C7_setFromString_noop ⟨1, 2, 3, ""⟩ "garbage" (by decide)⟩

/-- C8, counterexample: the claim asserts no reachable suffix begins with a
hyphen, but parsing `"v1--x"` succeeds and stores the suffix `"-x"` — the
regex strips only the single separator hyphen. -/
theorem C8_counterexample :
    (NewVersionFromString "v1--x").2 = none ∧
    (NewVersionFromString "v1--x").1.suffix = "-x" ∧
    (NewVersionFromString "v1--x").1.suffix.data.head? = some '-' := by
  refine ⟨by decide, by decide, by decide⟩

/-- C8 (amended): parsing strips exactly one hyphen between the numeric run
and the suffix and formatting re-inserts one hyphen when the suffix is
non-empty, but a suffix can still begin with a hyphen: a double hyphen in the
input (`"v1--x"`) or a leading-hyphen segment given to `SetSuffix` produces
one. -/
theorem C8_amended :
    (NewVersionFromString "v1-x").1.suffix = "x" ∧
    (NewVersionFromString "v1--x").1.suffix = "-x" ∧
    (NewVersion.setSuffix ["-a"]).suffix = "-a" ∧
    ∀ v : Version, v.suffix ≠ "" → ∃ base,
      v.toString = String.mk (base ++ '-' :: v.suffix.data) := by
  refine ⟨by decide, by decide, by decide, ?_⟩
  intro v h
  unfold Version.toString
  simp only [h, ne_eq, not_false_iff, if_true, ite_true]
  exact ⟨_, rfl⟩

/-- C8 witness: the re-insertion clause instantiated at suffix `"rc"`. -/
theorem C8_witness :
    ∃ base, Version.toString ⟨0, 0, 0, "rc"⟩
      = String.mk (base ++ '-' :: ("rc" : String).data) :=
  C8_amended.2.2.2 ⟨0, 0, 0, "rc"⟩ (by decide)

/-- C9, counterexample: the claim asserts components stay non-negative after
every setter call, but the setters store their argument verbatim: `SetMajor(-1)`
yields a negative major. -/
theorem C9_counterexample : (NewVersion.setMajor (-1)).major < 0 := by decide

/-- C9 (amended): components are non-negative after construction and after
every successful parse (captured digit runs are unsigned); the setters perform
no validation and store their argument verbatim, so a negative argument
produces a negative component. -/
theorem C9_amended :
    (NewVersion.major = 0 ∧ NewVersion.minor = 0 ∧ NewVersion.patch = 0) ∧
    (∀ s : String, (NewVersionFromString s).2 = none →
      0 ≤ (NewVersionFromString s).1.major ∧ 0 ≤ (NewVersionFromString s).1.minor ∧
        0 ≤ (NewVersionFromString s).1.patch) ∧
    (∀ (v : Version) (n : Int),
      (v.setMajor n).major = n ∧ (v.setMinor n).minor = n ∧ (v.setPatch n).patch = n) :=
  ⟨⟨rfl, rfl, rfl⟩, parse_success_nonneg, fun v n => ⟨rfl, rfl, rfl⟩⟩

/-- C9 witness: the parse clause instantiated at `"v1.2.3"`. -/
theorem C9_witness :
    (NewVersionFromString "v1.2.3").2 = none ∧
    (0 ≤ (NewVersionFromString "v1.2.3").1.major ∧
      0 ≤ (NewVersionFromString "v1.2.3").1.minor ∧
      0 ≤ (NewVersionFromString "v1.2.3").1.patch) :=
  ⟨by decide, C9_amended.2.1 "v1.2.3" (by decide)⟩

/-- C10 (confirmed): the regex is unanchored, so a version pattern is matched
anywhere in the input: `"abc1.2"` parses successfully to major 1, minor 2,
patch 0, empty suffix. -/
theorem C10_matches_anywhere :
    NewVersionFromString "abc1.2" = (⟨1, 2, 0, ""⟩, none) := by decide

end Semver
